import Mathlib

/-!
Verification development for the wagtail-starling content add-on.

The definitions below are a shallow embedding of the Python source in
`src/wagtail_starling/models.py` and
`src/wagtail_starling/templatetags/analytics_tags.py`:

* Django querysets over a model are embedded as Lean lists of records in
  database order; `.filter(...)` is `List.filter`, `.first()` is
  `List.head?`, `.exists()` is membership, and `Model.objects.get(...)`
  is a function returning `Except` (DoesNotExist / MultipleObjectsReturned).
* Python exceptions are `Except` errors; `try/except X: pass` is a match
  on the error constructor.
* Python strings are `String` where only equality is used, and `List Char`
  where the code slices and splices them (`CategoryMixin.get_url_parts`).
* Nullable foreign keys are `Option Nat` (the referenced row id);
  an unsaved primary key (`self.id` is `None`) is `Option Nat` as well.
* External collaborators (Django `slugify`, Wagtail `Page.get_url`,
  `super().route`, `article.specific.route`, settings lookup) are
  function-valued parameters of the embedding.
-/

namespace WagtailStarling

/-! ## AnalyticsSettings (`models.py`, class AnalyticsSettings) -/

/-- The three `inclusion_mode` enum values `INCLUSION_ALL`,
`INCLUSION_SPECIFIC`, `INCLUSION_EXCLUDE` from the source are the strings
below; the stored field is a free-form `CharField`, so the embedding keeps
it as a `String`. -/
def INCLUSION_ALL : String := "all"

def INCLUSION_SPECIFIC : String := "specific"

def INCLUSION_EXCLUDE : String := "exclude"

/-- Embedding of the `AnalyticsSettings` site setting.  Pages are referred
to by their id (`Nat`); the two many-to-many sets are lists of page ids. -/
structure AnalyticsSettings where
  enabled : Bool
  head_tracking_code : String
  body_tracking_code : String
  inclusion_mode : String
  included_pages : List Nat
  excluded_pages : List Nat
  deriving DecidableEq, Repr

/-- Embedding of `AnalyticsSettings.should_include_analytics` (models.py
lines 595-619).  `self.included_pages.filter(id=page.id).exists()` is a
membership test of the page id in the list. -/
def AnalyticsSettings.should_include_analytics
    (self : AnalyticsSettings) (page : Nat) : Bool :=
  if !self.enabled then false
  else if self.inclusion_mode == INCLUSION_ALL then true
  else if self.inclusion_mode == INCLUSION_SPECIFIC then
    self.included_pages.contains page
  else if self.inclusion_mode == INCLUSION_EXCLUDE then
    !(self.excluded_pages.contains page)
  else false

/-- The inclusion rule as the specification words it (spec section 4.2),
written independently of the code path above: a five-case table on
(enabled, mode, membership). -/
def shouldIncludeSpec (config : AnalyticsSettings) (page : Nat) : Bool :=
  match config.enabled with
  | false => false
  | true =>
    if config.inclusion_mode = "all" then true
    else if config.inclusion_mode = "specific" then
      decide (page ∈ config.included_pages)
    else if config.inclusion_mode = "exclude" then
      decide (page ∉ config.excluded_pages)
    else false

/-! ## Template tags (`templatetags/analytics_tags.py`) -/

/-- Embedding of the `analytics_head` template tag (analytics_tags.py
lines 10-39).  `request` and `page` are the values pulled out of the
template context (absent key = `none`); `lookup` is the combined
collaborator call `AnalyticsSettings.for_site (Site.find_for_request request)`,
whose failure modes (no site, no settings row, any exception inside the
`try` block) are the `Except.error` case caught by `except Exception`. -/
def analytics_head (lookup : Except Unit AnalyticsSettings)
    (request : Option Unit) (page : Option Nat) : String :=
  match request, page with
  | some _, some p =>
    match lookup with
    | .ok analytics =>
      if analytics.should_include_analytics p then
        analytics.head_tracking_code
      else ""
    | .error _ => ""
  | _, _ => ""

/-- Embedding of the `analytics_body` template tag (analytics_tags.py
lines 42-71); identical to `analytics_head` except that it emits
`body_tracking_code`. -/
def analytics_body (lookup : Except Unit AnalyticsSettings)
    (request : Option Unit) (page : Option Nat) : String :=
  match request, page with
  | some _, some p =>
    match lookup with
    | .ok analytics =>
      if analytics.should_include_analytics p then
        analytics.body_tracking_code
      else ""
    | .error _ => ""
  | _, _ => ""

/-! ## Category snippet (`models.py`, class Category) -/

/-- Embedding of the `Category` snippet.  `id` is `none` while the row is
unsaved; `translation_key` is the `TranslatableMixin` group key (`none`
models a falsy/unset key, `some k` a set one, matching the Python
truthiness test `if self.translation_key`). -/
structure Category where
  id : Option Nat
  name : String
  slug : String
  description : String
  locale : String
  translation_key : Option Nat
  deriving DecidableEq, Repr

/-- Embedding of `Category.save` (models.py lines 56-77).  `slugify` is the
external Django collaborator `django.utils.text.slugify`; `objects` is the
`Category.objects` table in database order, so that
`filter(translation_key=...).exclude(locale=...).first()` is
`(objects.filter ...).head?`.  The function returns the record as it is
handed to `super().save()`, which is what gets stored. -/
def Category.save (slugify : String → String) (objects : List Category)
    (self : Category) : Category :=
  let self1 :=
    if self.slug = "" then { self with slug := slugify self.name } else self
  if self1.translation_key.isSome && self1.id.isNone then
    match (objects.filter fun c =>
        c.translation_key == self1.translation_key
          && c.locale != self1.locale).head? with
    | some source_category => { self1 with slug := source_category.slug }
    | none => self1
  else self1

/-! ## Pagination (`models.py`, `article_category_index` lines 268-278 and
`BaseArticleIndexPage.get_context` lines 491-500)

Both places run the same pattern over Django's `Paginator`:

    try: articles = paginator.page(page)
    except PageNotAnInteger: articles = paginator.page(1)
    except EmptyPage: articles = paginator.page(paginator.num_pages)

`Paginator.validate_number` (Django) converts the parameter with `int(...)`
(`TypeError`/`ValueError` becomes `PageNotAnInteger`), then raises
`EmptyPage` when the number is `< 1` or `> num_pages` (except that page 1 of
an empty object list is allowed).  `num_pages` with the default
`orphans=0, allow_empty_first_page=True` is `ceil(max(1, count) / per_page)`. -/

inductive PageErr where
  | notAnInteger
  | emptyPage
  deriving DecidableEq, Repr

/-- Accumulator loop of decimal parsing: all characters must be digits. -/
def pyIntDigitsAux : List Char → Nat → Option Nat
  | [], acc => some acc
  | c :: rest, acc =>
    if c.isDigit then pyIntDigitsAux rest (acc * 10 + (c.toNat - '0'.toNat))
    else none

/-- A non-empty run of decimal digits, else failure. -/
def pyIntDigits : List Char → Option Nat
  | [] => none
  | l => pyIntDigitsAux l 0

/-- Python `int(x)` on the value of `request.GET.get("page")`: `none`
(parameter absent) raises `TypeError`, a non-numeric string raises
`ValueError`; both are the `none` case here.  Parsing accepts an optional
sign followed by decimal digits (Python additionally tolerates surrounding
whitespace and digit-group underscores; no claim depends on those). -/
def pyInt (s : Option String) : Option Int :=
  match s with
  | none => none
  | some str =>
    match str.data with
    | '-' :: rest => (pyIntDigits rest).map fun n => -(n : Int)
    | '+' :: rest => (pyIntDigits rest).map fun n => (n : Int)
    | l => (pyIntDigits l).map fun n => (n : Int)

/-- Django `Paginator.num_pages` (defaults `orphans = 0`,
`allow_empty_first_page = True`): `ceil(max(1, count) / per_page)`. -/
def num_pages (count per_page : Nat) : Nat :=
  (max 1 count + per_page - 1) / per_page

/-- Django `Paginator.validate_number` on a GET parameter. -/
def validate_number (count per_page : Nat) (number : Option String) :
    Except PageErr Nat :=
  match pyInt number with
  | none => .error .notAnInteger
  | some n =>
    if n < 1 then .error .emptyPage
    else if (num_pages count per_page : Int) < n then
      if n = 1 then .ok 1 else .error .emptyPage
    else .ok n.toNat

/-- The `try/except` clamping pattern used by both
`article_category_index` and `BaseArticleIndexPage.get_context`: the
number of the page of results that is actually rendered. -/
def clamped_page_number (count per_page : Nat) (number : Option String) :
    Nat :=
  match validate_number count per_page number with
  | .ok n => n
  | .error .notAnInteger => 1
  | .error .emptyPage => num_pages count per_page

/-! ## Category router (`models.py`, `CategoryRoutingMixin.route`
lines 167-231)

The router runs against an index page `self`; its article queryset is
always `ArticleModel.objects.live().child_of(self)` further filtered, so
the embedding carries the list of child articles of `self` in database
order and models `.live()` / `.filter(...)` / `.first()` on it.  The
collaborators `super().route` (the RoutablePage patterns, step between the
one- and two-segment rules), `article.specific.route` (delegation target)
and `article.get_url` (canonical URL) are function parameters; their
results are an abstract type `α`. -/

/-- A child article of the index: Wagtail slug, locale language code,
live flag, and the `CategoryMixin` foreign key (id of the category row,
`none` when no category is assigned). -/
structure Article where
  slug : String
  locale : String
  live : Bool
  category : Option Nat
  deriving DecidableEq, Repr

/-- Errors a Django `Model.objects.get(...)` can raise. -/
inductive GetErr where
  | doesNotExist
  | multipleReturned
  deriving DecidableEq, Repr

/-- Python exceptions crossing the `route` boundary: `Http404`, or
`MultipleObjectsReturned` escaping an uncaught `Category.objects.get`. -/
inductive PyExc where
  | http404
  | multipleObjects
  deriving DecidableEq, Repr

/-- `Category.objects.get(slug=slug, locale__language_code=language)`:
exactly one match succeeds, zero raises `DoesNotExist`, several raise
`MultipleObjectsReturned`. -/
def categoryGet (objects : List Category) (slug language : String) :
    Except GetErr Category :=
  match objects.filter fun c => c.slug == slug && c.locale == language with
  | [] => .error .doesNotExist
  | [c] => .ok c
  | _ :: _ :: _ => .error .multipleReturned

/-- The environment a `route` call runs in: the index page's child
articles, the category table, and the three collaborators. -/
structure RouteEnv (α : Type) where
  articles : List Article
  categories : List Category
  superRoute : List String → Except PyExc α
  articleRoute : Article → List String → Except PyExc α
  getUrl : Article → String

/-- What a successful `route` returns.  The Python function returns
Wagtail route tuples; the constructors record which of the four source
`return` statements produced the value: the redirect tuple
`(self, path, ⟨redirect_url: url⟩)`, the category tuple
`(self, path, ⟨category_slug: slug⟩)`, the value of `super().route(...)`,
or the value of `article.specific.route(request, [])` for the delegated
article. -/
inductive RouteResult (α : Type) where
  | redirect (url : String)
  | categoryIndex (slug : String)
  | fromSuper (v : α)
  | fromArticle (a : Article) (v : α)
  deriving DecidableEq

/-- Embedding of `CategoryRoutingMixin.route` (models.py lines 167-231).
Control flow mirrors the source: the single-segment block first (redirect
check, then category check); on fall-through the `super().route` attempt
with `except Http404: pass`; then the two-segment block; then
`raise Http404()`. -/
def route {α : Type} (env : RouteEnv α) (language : String)
    (path_components : List String) : Except PyExc (RouteResult α) :=
  let cont : Except PyExc (RouteResult α) :=
    match env.superRoute path_components with
    | .ok v => .ok (.fromSuper v)
    | .error .http404 =>
      match path_components with
      | [category_slug, post_slug] =>
        match categoryGet env.categories category_slug language with
        | .ok category =>
          match (env.articles.filter fun a =>
              a.live && a.slug == post_slug
                && a.category == category.id
                && a.locale == language).head? with
          | some article =>
            (env.articleRoute article []).map (RouteResult.fromArticle article)
          | none => .error .http404
        | .error .doesNotExist => .error .http404
        | .error .multipleReturned => .error .multipleObjects
      | _ => .error .http404
    | .error .multipleObjects => .error .multipleObjects
  match path_components with
  | [slug] =>
    let categoryCheck : Except PyExc (RouteResult α) :=
      match categoryGet env.categories slug language with
      | .ok _ => .ok (.categoryIndex slug)
      | .error .doesNotExist => cont
      | .error .multipleReturned => .error .multipleObjects
    match (env.articles.filter fun a =>
        a.live && a.slug == slug && a.locale == language).head? with
    | some article =>
      if article.category.isSome then .ok (.redirect (env.getUrl article))
      else categoryCheck
    | none => categoryCheck
  | _ => cont

/-! ## Category-aware URL construction (`models.py`,
`CategoryMixin.get_url_parts` lines 98-128)

The interesting part is the transformation of the `page_path` string
returned by `super().get_url_parts`:

    parts = page_path.rstrip("/").split("/")
    if len(parts) >= 2 and self.category.slug not in parts:
        parts.insert(-1, self.category.slug)
        page_path = "/".join(parts) + "/"

Python strings are embedded as `List Char` so that `rstrip`, `split` and
`join` are structural functions the proofs can unfold. -/

/-- Python `s.rstrip("/")`: remove every trailing `'/'`. -/
def rstripSlash (s : List Char) : List Char :=
  (s.reverse.dropWhile fun c => c == '/').reverse

/-- Python `s.split("/")` for the one-character separator `'/'`.
`splitSlash [] = [[]]` matches Python, where an empty string splits to a
list holding one empty string. -/
def splitSlash : List Char → List (List Char)
  | [] => [[]]
  | c :: rest =>
    match splitSlash rest with
    | [] => [[]]
    | h :: t => if c == '/' then [] :: h :: t else (c :: h) :: t

/-- Python `"/".join(parts)` on the embedded strings. -/
def joinSlash : List (List Char) → List Char
  | [] => []
  | [x] => x
  | x :: y :: t => x ++ '/' :: joinSlash (y :: t)

/-- Python `parts.insert(-1, x)`: insert `x` just before the last element
(`[x]` when the list is empty). -/
def insertBeforeLast {β : Type} (x : β) : List β → List β
  | [] => [x]
  | [a] => [x, a]
  | a :: b :: t => a :: insertBeforeLast x (b :: t)

/-- Embedding of the `page_path` rewrite inside
`CategoryMixin.get_url_parts` (models.py lines 121-127) for a page whose
`category` is set and has slug `catSlug`.  When the category is unset the
source leaves `page_path` alone, so only this branch is modelled. -/
def categoryPagePath (catSlug : List Char) (page_path : List Char) :
    List Char :=
  let parts := splitSlash (rstripSlash page_path)
  if 2 ≤ parts.length && !(parts.contains catSlug) then
    joinSlash (insertBeforeLast catSlug parts) ++ ['/']
  else page_path

/-! ### Concrete sample data used to exercise the theorems -/

/-- A live child article of the index, slug `hello`, categorized. -/
def artW : Article := ⟨"hello", "en", true, some 4⟩

/-- The category row the sample article points at. -/
def catW : Category := ⟨some 4, "Tech", "tech", "", "en", some 9⟩

/-- A routing environment whose extension sub-routes never match, whose
delegated article routing returns a tag string, and whose canonical URLs
are category-prefixed. -/
def envW : RouteEnv String where
  articles := [artW]
  categories := [catW]
  superRoute := fun _ => .error .http404
  articleRoute := fun a _ => .ok ("served " ++ a.slug)
  getUrl := fun a => "/en/tech/" ++ a.slug ++ "/"

/-- An already saved French category of translation group 7. -/
def catFrW : Category := ⟨some 1, "Nouvelles", "nouvelles", "", "fr", some 7⟩

/-- An unsaved English translation of group 7 with no slug supplied. -/
def newCatW : Category := ⟨none, "News", "", "", "en", some 7⟩

/-- An unsaved English translation of group 7 with an explicit slug. -/
def newCatExplicitW : Category := ⟨none, "News", "news-en", "", "en", some 7⟩

/-! ### Helper lemmas about the path-string operations -/

theorem splitSlash_ne_nil (l : List Char) : splitSlash l ≠ [] := by
  cases l with
  | nil => simp [splitSlash]
  | cons c rest =>
    simp only [splitSlash]
    cases hS : splitSlash rest with
    | nil => simp
    | cons h t => by_cases hc : c = '/' <;> simp [hc]

theorem splitSlash_cons_eq {rest h : List Char} {t : List (List Char)}
    (c : Char) (hS : splitSlash rest = h :: t) :
    splitSlash (c :: rest) =
      if c = '/' then [] :: h :: t else (c :: h) :: t := by
  simp only [splitSlash, hS]
  by_cases hc : c = '/' <;> simp [hc]

theorem no_slash_of_mem_splitSlash :
    ∀ (l x : List Char), x ∈ splitSlash l → '/' ∉ x := by
  intro l
  induction l with
  | nil =>
    intro x hx
    simp [splitSlash] at hx
    simp [hx]
  | cons c rest ih =>
    intro x hx
    cases hS : splitSlash rest with
    | nil => exact absurd hS (splitSlash_ne_nil rest)
    | cons h t =>
      rw [splitSlash_cons_eq c hS] at hx
      by_cases hc : c = '/'
      · rw [if_pos hc] at hx
        rcases List.mem_cons.mp hx with rfl | hx2
        · simp
        · exact ih x (hS ▸ hx2)
      · rw [if_neg hc] at hx
        rcases List.mem_cons.mp hx with rfl | hx2
        · intro hmem
          rcases List.mem_cons.mp hmem with hce | hmem2
          · exact hc hce.symm
          · exact ih h (hS ▸ List.mem_cons_self h t) hmem2
        · exact ih x (hS ▸ List.mem_cons_of_mem h hx2)

theorem splitSlash_eq_of_no_slash :
    ∀ (x : List Char), '/' ∉ x → splitSlash x = [x] := by
  intro x
  induction x with
  | nil => intro _; rfl
  | cons c rest ih =>
    intro hx
    have hc : c ≠ '/' := fun h => hx (h ▸ List.mem_cons_self c rest)
    have hrest : '/' ∉ rest := fun h => hx (List.mem_cons_of_mem c h)
    rw [splitSlash_cons_eq c (ih hrest), if_neg hc]

theorem splitSlash_append_slash_cons :
    ∀ (x r : List Char), '/' ∉ x →
      splitSlash (x ++ '/' :: r) = x :: splitSlash r := by
  intro x
  induction x with
  | nil =>
    intro r _
    cases hS : splitSlash r with
    | nil => exact absurd hS (splitSlash_ne_nil r)
    | cons h t =>
      rw [List.nil_append, splitSlash_cons_eq '/' hS, if_pos rfl]
  | cons c rest ih =>
    intro r hx
    have hc : c ≠ '/' := fun h => hx (h ▸ List.mem_cons_self c rest)
    have hrest : '/' ∉ rest := fun h => hx (List.mem_cons_of_mem c h)
    rw [List.cons_append, splitSlash_cons_eq c (ih r hrest), if_neg hc]

theorem splitSlash_joinSlash :
    ∀ (xs : List (List Char)), xs ≠ [] → (∀ x ∈ xs, '/' ∉ x) →
      splitSlash (joinSlash xs) = xs := by
  intro xs
  induction xs with
  | nil => intro h; exact absurd rfl h
  | cons x ys ih =>
    intro _ hns
    cases ys with
    | nil =>
      simp only [joinSlash]
      exact splitSlash_eq_of_no_slash x (hns x (List.mem_cons_self x []))
    | cons y t =>
      simp only [joinSlash]
      rw [splitSlash_append_slash_cons x (joinSlash (y :: t))
        (hns x (List.mem_cons_self x (y :: t)))]
      rw [ih (by simp) fun z hz => hns z (List.mem_cons_of_mem x hz)]

theorem head?_dropWhile_false {p : Char → Bool} :
    ∀ (l : List Char) (a : Char), (l.dropWhile p).head? = some a →
      p a = false := by
  intro l
  induction l with
  | nil => intro a h; simp [List.dropWhile] at h
  | cons c rest ih =>
    intro a h
    rw [List.dropWhile_cons] at h
    by_cases hc : p c = true
    · rw [if_pos hc] at h
      exact ih a h
    · rw [if_neg hc] at h
      simp only [List.head?_cons, Option.some.injEq] at h
      subst h
      simpa using hc

theorem getLast?_rstripSlash (s : List Char) :
    (rstripSlash s).getLast? ≠ some '/' := by
  intro h
  unfold rstripSlash at h
  rw [List.getLast?_reverse] at h
  have := head?_dropWhile_false (s.reverse) '/' h
  simp at this

theorem rstripSlash_eq_self (s : List Char)
    (h : s.getLast? ≠ some '/') : rstripSlash s = s := by
  rcases s.eq_nil_or_concat' with rfl | ⟨l, c, rfl⟩
  · rfl
  · have hc : c ≠ '/' := by
      intro hc
      exact h (by rw [hc, List.getLast?_concat])
    simp [rstripSlash, List.reverse_append, List.dropWhile_cons, hc]

theorem rstripSlash_append_slash (s : List Char) :
    rstripSlash (s ++ ['/']) = rstripSlash s := by
  unfold rstripSlash
  rw [List.reverse_append]
  simp [List.dropWhile_cons]

theorem getLast?_cons_of_ne_nil {β : Type} (a : β) {l : List β}
    (h : l ≠ []) : (a :: l).getLast? = l.getLast? := by
  cases l with
  | nil => exact absurd rfl h
  | cons b t => exact List.getLast?_cons_cons ..

theorem joinSlash_getLast? :
    ∀ (xs : List (List Char)) (z : List Char), xs.getLast? = some z →
      z ≠ [] → (joinSlash xs).getLast? = z.getLast? := by
  intro xs
  induction xs with
  | nil => intro z hz _; simp at hz
  | cons x ys ih =>
    intro z hz hzne
    cases ys with
    | nil =>
      simp only [List.getLast?_singleton, Option.some.injEq] at hz
      subst hz
      rfl
    | cons y t =>
      rw [List.getLast?_cons_cons] at hz
      have hw := ih z hz hzne
      have hwne : joinSlash (y :: t) ≠ [] := by
        intro hnil
        rw [hnil] at hw
        cases hzl : z.getLast? with
        | none => exact hzne (by simpa using hzl)
        | some c => rw [hzl] at hw; simp at hw
      show (x ++ '/' :: joinSlash (y :: t)).getLast? = z.getLast?
      rw [List.getLast?_append_of_ne_nil x (by simp),
        getLast?_cons_of_ne_nil '/' hwne, hw]

theorem splitSlash_getLast?_empty :
    ∀ (r : List Char), (splitSlash r).getLast? = some ([] : List Char) →
      r = [] ∨ r.getLast? = some '/' := by
  intro r
  induction r with
  | nil => intro _; exact Or.inl rfl
  | cons c rest ih =>
    intro h
    cases hS : splitSlash rest with
    | nil => exact absurd hS (splitSlash_ne_nil rest)
    | cons s t =>
      rw [splitSlash_cons_eq c hS] at h
      by_cases hc : c = '/'
      · rw [if_pos hc] at h
        rw [getLast?_cons_of_ne_nil [] (by simp)] at h
        rcases ih (hS ▸ h) with rfl | hrest
        · right
          simp [hc]
        · right
          rw [getLast?_cons_of_ne_nil c
            (by rintro rfl; simp at hrest), hrest]
      · rw [if_neg hc] at h
        cases t with
        | nil => simp at h
        | cons t1 t2 =>
          rw [getLast?_cons_of_ne_nil (c :: s) (by simp)] at h
          have h2 : (splitSlash rest).getLast? = some ([] : List Char) := by
            rw [hS, getLast?_cons_of_ne_nil s (by simp)]
            exact h
          rcases ih h2 with rfl | hrest
          · exact absurd hS (by simp [splitSlash])
          · right
            rw [getLast?_cons_of_ne_nil c
              (by rintro rfl; simp at hrest), hrest]

theorem insertBeforeLast_concat {β : Type} (x a : β) :
    ∀ (l : List β), insertBeforeLast x (l ++ [a]) = l ++ [x, a] := by
  intro l
  induction l with
  | nil => rfl
  | cons b l2 ih =>
    cases l2 with
    | nil => rfl
    | cons c l3 =>
      show b :: insertBeforeLast x ((c :: l3) ++ [a]) = b :: ((c :: l3) ++ [x, a])
      rw [ih]

/-! ### Helper lemmas about `Category.save` and pagination -/

theorem Category.save_slug_of_source (slugify : String → String)
    (objects : List Category) (self source : Category)
    (hid : self.id = none) (htk : self.translation_key.isSome = true)
    (hsrc : (objects.filter fun c =>
        c.translation_key == self.translation_key
          && c.locale != self.locale).head? = some source) :
    (Category.save slugify objects self).slug = source.slug := by
  unfold Category.save
  by_cases hs : self.slug = "" <;>
    simp [hs, hid, htk, hsrc]

theorem one_le_num_pages (count per_page : Nat) (hp : 0 < per_page) :
    1 ≤ num_pages count per_page := by
  unfold num_pages
  rw [Nat.le_div_iff_mul_le hp]
  have := Nat.le_max_left 1 count
  omega

/-! ### Helper lemmas about `categoryPagePath` -/

theorem categoryPagePath_eq_of_mem (catSlug page_path : List Char)
    (h : catSlug ∈ splitSlash (rstripSlash page_path)) :
    categoryPagePath catSlug page_path = page_path := by
  have hc : (splitSlash (rstripSlash page_path)).contains catSlug = true :=
    List.elem_iff.mpr h
  simp only [categoryPagePath]
  rw [if_neg (by simp [hc]; exact fun _ => h)]

theorem categoryPagePath_eq_of_short (catSlug page_path : List Char)
    (h : (splitSlash (rstripSlash page_path)).length < 2) :
    categoryPagePath catSlug page_path = page_path := by
  have h2 : ¬ 2 ≤ (splitSlash (rstripSlash page_path)).length := by omega
  simp only [categoryPagePath]
  rw [if_neg (by simp [h2])]

theorem categoryPagePath_insert (catSlug : List Char)
    (page_path : List Char) (init : List (List Char)) (lastSeg : List Char)
    (hparts : splitSlash (rstripSlash page_path) = init ++ [lastSeg])
    (hinit : init ≠ [])
    (hnm : catSlug ∉ init ++ [lastSeg]) :
    categoryPagePath catSlug page_path
      = joinSlash (init ++ [catSlug, lastSeg]) ++ ['/'] := by
  have hlen : 2 ≤ (init ++ [lastSeg]).length := by
    cases init with
    | nil => exact absurd rfl hinit
    | cons i t => simp [List.length_append]
  simp only [categoryPagePath, hparts]
  rw [if_pos (by
    simp [hlen, List.elem_eq_mem, hnm]
    exact List.length_pos.mpr hinit)]
  rw [insertBeforeLast_concat]

end WagtailStarling

open WagtailStarling

/-- Claim C2: `should_include_analytics` computes exactly the five-case
truth table of spec section 4.2: false whenever `enabled` is false;
otherwise true for mode ALL; for mode SPECIFIC true iff the page is a
member of `included_pages`; for mode EXCLUDE true iff the page is not a
member of `excluded_pages`; false for any other mode value — for every
configuration and page. -/
theorem should_include_analytics_matches_spec_table :
    ∀ (config : AnalyticsSettings) (page : Nat),
      config.should_include_analytics page = shouldIncludeSpec config page := by
  intro config page
  unfold AnalyticsSettings.should_include_analytics shouldIncludeSpec
  cases config.enabled <;>
    simp [INCLUSION_ALL, INCLUSION_SPECIFIC, INCLUSION_EXCLUDE,
      List.elem_eq_mem]

/-- Claim C7: the analytics template tags return the empty string whenever
the configuration lookup fails (missing settings, site-resolution failure,
or any exception in the guarded block), and a non-empty payload is emitted
only when a configuration was found and `should_include_analytics` is true
for the context's page. -/
theorem analytics_tags_fail_closed :
    ∀ (lookup : Except Unit AnalyticsSettings)
      (request : Option Unit) (page : Option Nat),
      (lookup = .error () →
        analytics_head lookup request page = ""
          ∧ analytics_body lookup request page = "")
      ∧ (analytics_head lookup request page ≠ "" →
          ∃ a p, lookup = .ok a ∧ page = some p
            ∧ a.should_include_analytics p = true)
      ∧ (analytics_body lookup request page ≠ "" →
          ∃ a p, lookup = .ok a ∧ page = some p
            ∧ a.should_include_analytics p = true) := by
  intro lookup request page
  cases request with
  | none => simp [analytics_head, analytics_body]
  | some r =>
    cases page with
    | none => simp [analytics_head, analytics_body]
    | some p =>
      cases lookup with
      | error e => simp [analytics_head, analytics_body]
      | ok a =>
        refine ⟨fun h => by simp at h, ?_, ?_⟩
        · intro hne
          refine ⟨a, p, rfl, rfl, ?_⟩
          cases hinc : a.should_include_analytics p with
          | true => rfl
          | false => exact absurd (by simp [analytics_head, hinc]) hne
        · intro hne
          refine ⟨a, p, rfl, rfl, ?_⟩
          cases hinc : a.should_include_analytics p with
          | true => rfl
          | false => exact absurd (by simp [analytics_body, hinc]) hne

/-- Witness for claim C7 at a failed lookup: both tags emit nothing. -/
theorem analytics_tags_fail_closed_witness :
    analytics_head (.error ()) (some ()) (some 1) = ""
      ∧ analytics_body (.error ()) (some ()) (some 1) = "" :=
  (analytics_tags_fail_closed (.error ()) (some ()) (some 1)).1 rfl

/-- Claim C8: for every page parameter the listing pagination is total and
clamps: a non-numeric parameter (or an absent one) yields page 1, a numeric
parameter beyond the last page yields the last page, and every in-range
numeric parameter yields the requested page. -/
theorem pagination_clamps_page_number
    (count per_page : Nat) (hp : 0 < per_page) (param : Option String) :
    (pyInt param = none → clamped_page_number count per_page param = 1)
    ∧ (∀ n : Int, pyInt param = some n →
        (num_pages count per_page : Int) < n →
        clamped_page_number count per_page param = num_pages count per_page)
    ∧ (∀ n : Int, pyInt param = some n → 1 ≤ n →
        n ≤ (num_pages count per_page : Int) →
        clamped_page_number count per_page param = n.toNat) := by
  refine ⟨?_, ?_, ?_⟩
  · intro h
    unfold clamped_page_number validate_number
    rw [h]
  · intro n h hgt
    have h1 : (1 : Int) ≤ (num_pages count per_page : Int) := by
      exact_mod_cast one_le_num_pages count per_page hp
    unfold clamped_page_number validate_number
    rw [h]
    simp only [if_neg (by omega : ¬n < 1), if_pos hgt,
      if_neg (by omega : ¬n = 1)]
  · intro n h h1 h2
    unfold clamped_page_number validate_number
    rw [h]
    simp only [if_neg (by omega : ¬n < 1),
      if_neg (by omega : ¬(num_pages count per_page : Int) < n)]

/-- Witness for claim C8 with 25 articles at 10 per page (3 pages):
parameter `abc` gives page 1, `999` gives page 3, `2` gives page 2. -/
theorem pagination_clamps_page_number_witness :
    clamped_page_number 25 10 (some "abc") = 1
      ∧ clamped_page_number 25 10 (some "999") = 3
      ∧ clamped_page_number 25 10 (some "2") = 2 :=
  ⟨(pagination_clamps_page_number 25 10 (by decide) (some "abc")).1
      (by decide),
   ((pagination_clamps_page_number 25 10 (by decide) (some "999")).2.1
      999 (by decide) (by decide)).trans (by decide),
   ((pagination_clamps_page_number 25 10 (by decide) (some "2")).2.2
      2 (by decide) (by decide) (by decide)).trans (by decide)⟩

/-- Claim C9: saving a brand-new locale variant (unset id) of an existing
translation group with no explicit slug supplied stores the source
variant's slug, for every slugify collaborator — the slug is propagated,
not re-derived from the translated name. -/
theorem category_save_propagates_translation_slug
    (slugify : String → String) (objects : List Category)
    (self source : Category) (k : Nat)
    (hid : self.id = none) (htk : self.translation_key = some k)
    (_hnoslug : self.slug = "")
    (hsrc : (objects.filter fun c =>
        c.translation_key == self.translation_key
          && c.locale != self.locale).head? = some source) :
    (Category.save slugify objects self).slug = source.slug :=
  Category.save_slug_of_source slugify objects self source hid
    (by simp [htk]) hsrc

/-- Witness for claim C9: the unsaved English copy of group 7 with empty
slug stores the French variant's slug `nouvelles`. -/
theorem category_save_propagates_translation_slug_witness :
    (Category.save (fun s => s) [catFrW] newCatW).slug = "nouvelles" :=
  category_save_propagates_translation_slug (fun s => s) [catFrW]
    newCatW catFrW 7 rfl rfl rfl (by rfl)

/-- Claim C10 (implicit): at translation-creation time (unset id, same
translation group present in another locale) the source variant's slug
overwrites whatever slug the caller set on the new object — the stored
slug always equals the source slug, with no hypothesis on `self.slug`. -/
theorem category_save_overrides_explicit_slug
    (slugify : String → String) (objects : List Category)
    (self source : Category) (k : Nat)
    (hid : self.id = none) (htk : self.translation_key = some k)
    (hsrc : (objects.filter fun c =>
        c.translation_key == self.translation_key
          && c.locale != self.locale).head? = some source) :
    (Category.save slugify objects self).slug = source.slug :=
  Category.save_slug_of_source slugify objects self source hid
    (by simp [htk]) hsrc

/-- Witness for claim C10: an explicitly supplied slug `news-en` is
replaced by the source slug `nouvelles` on first save. -/
theorem category_save_overrides_explicit_slug_witness :
    (Category.save (fun s => s) [catFrW] newCatExplicitW).slug = "nouvelles"
      ∧ newCatExplicitW.slug = "news-en" :=
  ⟨category_save_overrides_explicit_slug (fun s => s) [catFrW]
      newCatExplicitW catFrW 7 rfl rfl (by rfl), rfl⟩

/-- Claim C1: on a single-segment path, when the first live locale-matching
child article with that slug carries a non-null category, `route` returns
the redirect result holding that article's canonical URL — for every
category table, so in particular whether or not a category with the same
slug exists (the article-redirect check precedes the category check). -/
theorem route_single_segment_categorized_article_redirects {α : Type}
    (env : RouteEnv α) (language s : String) (a : Article)
    (hfilter : env.articles.filter
        (fun x => x.live && x.slug == s && x.locale == language) = [a])
    (hcat : a.category.isSome = true) :
    route env language [s] = .ok (.redirect (env.getUrl a)) := by
  unfold route
  simp [hfilter, hcat]

/-- Witness for claim C1: the categorized article `hello` is redirected to
its canonical URL even though `envW` also stores a category table. -/
theorem route_single_segment_categorized_article_redirects_witness :
    route envW "en" ["hello"] = .ok (.redirect "/en/tech/hello/") :=
  route_single_segment_categorized_article_redirects envW "en" "hello"
    artW (by decide) (by decide)

/-- Claim C3: on a single-segment path, when no live locale-matching child
article with that slug has a non-null category but exactly one category
row with that slug exists in the locale, `route` returns the
category-listing result carrying the slug. -/
theorem route_single_segment_category_listing {α : Type}
    (env : RouteEnv α) (language s : String) (cat : Category)
    (hart : ∀ x ∈ env.articles.filter
        (fun x => x.live && x.slug == s && x.locale == language),
        x.category = none)
    (hcat : env.categories.filter
        (fun c => c.slug == s && c.locale == language) = [cat]) :
    route env language [s] = .ok (.categoryIndex s) := by
  unfold route categoryGet
  cases hh : (env.articles.filter
      (fun x => x.live && x.slug == s && x.locale == language)).head? with
  | none => simp [hh, hcat]
  | some art =>
    have hnone : art.category = none :=
      hart art (List.mem_of_mem_head? hh)
    simp [hh, hcat, hnone]

/-- Witness for claim C3: the path `tech` renders the category listing. -/
theorem route_single_segment_category_listing_witness :
    route envW "en" ["tech"] = .ok (.categoryIndex "tech") :=
  route_single_segment_category_listing envW "en" "tech" catW
    (by decide) (by decide)

/-- Claim C4: on a two-segment path, assuming the registered sub-routes do
not match: when exactly one category with the first slug exists and a live
child article matches the second slug, that category and the locale,
`route` returns the result of delegating to that article's own route
handler with an empty remaining path; when the category lookup finds
nothing, or the article lookup finds nothing, `route` raises the
not-found error. -/
theorem route_two_segment_category_article {α : Type}
    (env : RouteEnv α) (language c a : String)
    (hsuper : env.superRoute [c, a] = .error .http404) :
    (∀ cat art,
        env.categories.filter
          (fun x => x.slug == c && x.locale == language) = [cat] →
        (env.articles.filter fun x =>
            x.live && x.slug == a && x.category == cat.id
              && x.locale == language).head? = some art →
        route env language [c, a]
          = (env.articleRoute art []).map (RouteResult.fromArticle art))
    ∧ (env.categories.filter
          (fun x => x.slug == c && x.locale == language) = [] →
        route env language [c, a] = .error .http404)
    ∧ (∀ cat,
        env.categories.filter
          (fun x => x.slug == c && x.locale == language) = [cat] →
        (env.articles.filter fun x =>
            x.live && x.slug == a && x.category == cat.id
              && x.locale == language).head? = none →
        route env language [c, a] = .error .http404) := by
  refine ⟨?_, ?_, ?_⟩
  · intro cat art h1 h2
    unfold route categoryGet
    simp [hsuper, h1, h2]
  · intro h1
    unfold route categoryGet
    simp [hsuper, h1]
  · intro cat h1 h2
    unfold route categoryGet
    simp [hsuper, h1, h2]

/-- Witness for claim C4: `tech/hello` delegates into the article's own
routing; `tech/zzz` (no such article) is a 404. -/
theorem route_two_segment_category_article_witness :
    route envW "en" ["tech", "hello"]
        = .ok (.fromArticle artW "served hello")
      ∧ route envW "en" ["tech", "zzz"] = .error .http404 :=
  ⟨(route_two_segment_category_article envW "en" "tech" "hello"
      rfl).1 catW artW (by decide) (by decide),
   (route_two_segment_category_article envW "en" "tech" "zzz"
      rfl).2.2 catW (by decide) (by decide)⟩

/-- Claim C5 counterexample: with category slug `fr` and base path
`/fr/blog/article/`, the slug occurs as the locale-prefix segment but not
immediately before the final segment, so the claim requires the insertion
to happen; the code instead returns the path unchanged, because it skips
whenever the slug occurs anywhere among the path's segments. -/
theorem categoryPagePath_position_claim_false :
    2 ≤ (splitSlash (rstripSlash "/fr/blog/article/".data)).length
      ∧ "fr".data ∈ splitSlash (rstripSlash "/fr/blog/article/".data)
      ∧ (splitSlash (rstripSlash "/fr/blog/article/".data)).get?
          ((splitSlash (rstripSlash "/fr/blog/article/".data)).length - 2)
        ≠ some "fr".data
      ∧ categoryPagePath "fr".data "/fr/blog/article/".data
        = "/fr/blog/article/".data
      ∧ "/fr/blog/article/".data ≠ "/fr/blog/fr/article/".data := by
  decide

/-- Claim C5 (amended): for a base path of at least two segments the
category slug is inserted immediately before the final segment when the
slug occurs in none of the path's segments; the insertion is skipped — the
path is returned unchanged — whenever the slug already occurs anywhere
among the segments (not only at the position immediately before the final
segment), or when the path has fewer than two segments. -/
theorem categoryPagePath_skip_anywhere (catSlug page_path : List Char) :
    (catSlug ∈ splitSlash (rstripSlash page_path) →
      categoryPagePath catSlug page_path = page_path)
    ∧ ((splitSlash (rstripSlash page_path)).length < 2 →
      categoryPagePath catSlug page_path = page_path)
    ∧ (∀ (init : List (List Char)) (lastSeg : List Char),
        splitSlash (rstripSlash page_path) = init ++ [lastSeg] →
        init ≠ [] →
        catSlug ∉ init ++ [lastSeg] →
        categoryPagePath catSlug page_path
          = joinSlash (init ++ [catSlug, lastSeg]) ++ ['/']) :=
  ⟨categoryPagePath_eq_of_mem catSlug page_path,
   categoryPagePath_eq_of_short catSlug page_path,
   fun init lastSeg => categoryPagePath_insert catSlug page_path init lastSeg⟩

/-- Witness for amended claim C5: `/blog/post/` receives the insertion of
`cat` before the final segment; `/fr/cat/post/` already holds the slug in
a segment and is returned unchanged. -/
theorem categoryPagePath_skip_anywhere_witness :
    categoryPagePath "cat".data "/blog/post/".data = "/blog/cat/post/".data
      ∧ categoryPagePath "cat".data "/fr/cat/post/".data
        = "/fr/cat/post/".data :=
  ⟨(categoryPagePath_skip_anywhere "cat".data "/blog/post/".data).2.2
      [[], "blog".data] "post".data (by decide) (by decide) (by decide),
   (categoryPagePath_skip_anywhere "cat".data "/fr/cat/post/".data).1
      (by decide)⟩

/-- Claim C6: the category-slug splice is idempotent — a path already
holding the slug immediately before its final segment is returned
unchanged, and (for a well-formed slug, one containing no `/`) applying
the construction twice equals applying it once. -/
theorem categoryPagePath_idempotent (catSlug page_path : List Char) :
    (∀ (init : List (List Char)) (lastSeg : List Char),
        splitSlash (rstripSlash page_path) = init ++ [catSlug, lastSeg] →
        categoryPagePath catSlug page_path = page_path)
    ∧ ('/' ∉ catSlug →
        categoryPagePath catSlug (categoryPagePath catSlug page_path)
          = categoryPagePath catSlug page_path) := by
  constructor
  · intro init lastSeg hparts
    apply categoryPagePath_eq_of_mem
    rw [hparts]
    simp
  · intro hslash
    by_cases hmem : catSlug ∈ splitSlash (rstripSlash page_path)
    · have h := categoryPagePath_eq_of_mem catSlug page_path hmem
      rw [h]
      exact h
    · by_cases hshort : (splitSlash (rstripSlash page_path)).length < 2
      · have h := categoryPagePath_eq_of_short catSlug page_path hshort
        rw [h]
        exact h
      · obtain ⟨init, z, hparts⟩ :
            ∃ init z, splitSlash (rstripSlash page_path) = init ++ [z] := by
          rcases (splitSlash (rstripSlash page_path)).eq_nil_or_concat'
            with hnil | ⟨i, z, hiz⟩
          · exact absurd hnil (splitSlash_ne_nil _)
          · exact ⟨i, z, hiz⟩
        have hinit : init ≠ [] := by
          intro h0
          rw [h0] at hparts
          rw [hparts] at hshort
          simp at hshort
        have hnm : catSlug ∉ init ++ [z] := fun hx => hmem (hparts ▸ hx)
        have hz_mem : z ∈ splitSlash (rstripSlash page_path) := by
          rw [hparts]
          simp
        have hz_noslash : '/' ∉ z :=
          no_slash_of_mem_splitSlash _ z hz_mem
        have hz_ne : z ≠ [] := by
          intro hz0
          have hlastp : (splitSlash (rstripSlash page_path)).getLast?
              = some ([] : List Char) := by
            rw [hparts, hz0, List.getLast?_concat]
          rcases splitSlash_getLast?_empty _ hlastp with hnil | hsl
          · have h1 : splitSlash (rstripSlash page_path) = [[]] := by
              rw [hnil]
              rfl
            rw [h1] at hshort
            simp at hshort
          · exact getLast?_rstripSlash page_path hsl
        have hres := categoryPagePath_insert catSlug page_path init z
          hparts hinit hnm
        rw [hres]
        apply categoryPagePath_eq_of_mem
        rw [rstripSlash_append_slash]
        have hnewlast : (init ++ [catSlug, z]).getLast? = some z := by
          have h2 : init ++ [catSlug, z] = (init ++ [catSlug]) ++ [z] := by
            simp
          rw [h2, List.getLast?_concat]
        have hjl : (joinSlash (init ++ [catSlug, z])).getLast? = z.getLast? :=
          joinSlash_getLast? _ z hnewlast hz_ne
        obtain ⟨c, hc⟩ :=
          Option.isSome_iff_exists.mp (List.getLast?_isSome.mpr hz_ne)
        have hcne : c ≠ '/' := by
          intro h0
          exact hz_noslash (h0 ▸ List.mem_of_mem_getLast? hc)
        have hrs : rstripSlash (joinSlash (init ++ [catSlug, z]))
            = joinSlash (init ++ [catSlug, z]) := by
          apply rstripSlash_eq_self
          rw [hjl, hc]
          intro h0
          exact hcne (by injection h0)
        rw [hrs]
        have hns : ∀ x ∈ init ++ [catSlug, z], '/' ∉ x := by
          intro x hx
          rcases List.mem_append.mp hx with hx1 | hx2
          · exact no_slash_of_mem_splitSlash _ x
              (hparts ▸ List.mem_append_left _ hx1)
          · rcases List.mem_cons.mp hx2 with rfl | hx3
            · exact hslash
            · rcases List.mem_cons.mp hx3 with rfl | hx4
              · exact hz_noslash
              · simp at hx4
        rw [splitSlash_joinSlash (init ++ [catSlug, z]) (by simp) hns]
        simp

/-- Witness for claim C6: `/blog/cat/post/` already holds `cat` before the
final segment and is returned unchanged; starting from `/blog/post/` a
second application leaves the first application's output unchanged. -/
theorem categoryPagePath_idempotent_witness :
    categoryPagePath "cat".data "/blog/cat/post/".data
        = "/blog/cat/post/".data
      ∧ categoryPagePath "cat".data
          (categoryPagePath "cat".data "/blog/post/".data)
        = categoryPagePath "cat".data "/blog/post/".data :=
  ⟨(categoryPagePath_idempotent "cat".data "/blog/cat/post/".data).1
      [[], "blog".data] "post".data (by decide),
   (categoryPagePath_idempotent "cat".data "/blog/post/".data).2
      (by decide)⟩
